import Mathlib

/-!
Verification model of the Neo4j vector-db adapter
(server/utils/vectorDbProviders/neo4j/index.js).

The adapter stores text chunks as Neo4j nodes labelled Chunk plus a
dynamically interpolated namespace label, maintains a KNN similarity
graph (SIMILAR_TO relationships carrying a similarity weight), and
answers hybrid similarity queries.  External collaborators (the
embedding provider, the text splitter, the Neo4j cosine routine and
the chunk cache) are abstracted as function parameters; machine floats
are idealised as rationals.  Cypher three-valued logic is modelled
where it is observable: a property access or arithmetic operation on a
null operand yields null, modelled by Option.
-/

set_option allowUnsafeReducibility true
attribute [local semireducible] Rat.add Rat.mul Rat.inv Rat.sub

namespace NeoAdapter

/-- A stored chunk node.  Every stored node carries the label Chunk
implicitly; the labels field holds the additional (namespace) labels
that were interpolated into the CREATE statement.  The metadata JSON
blob is modelled as an association list (JSON.stringify and JSON.parse
are inverse serialisation, abstracted away); the embedding property
may be null. -/
structure Chunk where
  chunkId : String
  docId : String
  labels : List String
  pageContent : String
  metadata : List (String × String)
  embedding : Option (List ℚ)
  deriving DecidableEq, Repr

/-- A SIMILAR_TO relationship written by gds.knn.write, carrying its
similarity weight.  Traversal in the search query is undirected. -/
structure Edge where
  src : String
  dst : String
  similarity : ℚ
  deriving DecidableEq, Repr

/-- The backing-store contents relevant to the adapter: chunk nodes and
SIMILAR_TO relationships (edges connect stored chunks by chunkId). -/
structure GraphState where
  chunks : List Chunk
  edges : List Edge
  deriving DecidableEq, Repr

/-- Observable calls the adapter makes against its collaborators, used
to state invocation-order properties. -/
inductive Event
  | embedText
  | runQuery
  | embedBatch
  | writeChunk (i : ℕ)
  | storeCache
  | maintain
  | deleteQuery
  deriving DecidableEq, Repr

/-- Chunks of a namespace: the Cypher patterns (c:Chunk:ns) and
(n:Chunk) WHERE ns IN labels(n) both select stored chunks carrying the
namespace label. -/
def nsCandidates (st : GraphState) (ns : String) : List Chunk :=
  st.chunks.filter (fun c => decide (ns ∈ c.labels))

/-- The count returned by MATCH (c:Chunk:ns) RETURN count(c). -/
def countNamespace (st : GraphState) (ns : String) : ℕ :=
  (nsCandidates st ns).length

/-- Cypher null-propagating addition. -/
def nadd : Option ℚ → Option ℚ → Option ℚ
  | some a, some b => some (a + b)
  | _, _ => none

/-- Cypher null-propagating multiplication. -/
def nmul : Option ℚ → Option ℚ → Option ℚ
  | some a, some b => some (a * b)
  | _, _ => none

/-- Cypher null-propagating division by a (nonzero) integer size. -/
def ndivNat (x : Option ℚ) (n : ℕ) : Option ℚ :=
  x.map (fun a => a / (n : ℚ))

/-- A row surviving the direct-similarity stage of the search query:
the chunk, its cosine similarity against the query vector, and its
position among the namespace candidates (used to give the unspecified
engine tie order a deterministic stable-sort semantics). -/
structure SRec where
  idx : ℕ
  chunk : Chunk
  directSim : ℚ
  deriving DecidableEq, Repr

/-- Rows passing WHERE similarity >= threshold.  The cosine similarity
of a chunk embedding against the (already embedded) query is supplied
by the abstract engine function cos; a null embedding gives a null
similarity, which the WHERE filters out. -/
def passing (st : GraphState) (cos : List ℚ → ℚ) (ns : String) (t : ℚ) :
    List SRec :=
  (nsCandidates st ns).enum.filterMap (fun p =>
    match p.2.embedding with
    | some emb => if t ≤ cos emb then some ⟨p.1, p.2, cos emb⟩ else none
    | none => none)

/-- ORDER BY similarity DESC, ties resolved by candidate position
(stable-sort reading of the unspecified engine tie order). -/
def simOrder (a b : SRec) : Prop :=
  b.directSim < a.directSim ∨ (a.directSim = b.directSim ∧ a.idx ≤ b.idx)

instance : DecidableRel simOrder := fun a b =>
  decidable_of_iff
    (b.directSim < a.directSim ∨ (a.directSim = b.directSim ∧ a.idx ≤ b.idx))
    Iff.rfl

instance : IsTotal SRec simOrder := by
  constructor
  intro a b
  unfold simOrder
  rcases lt_trichotomy a.directSim b.directSim with h | h | h
  · exact Or.inr (Or.inl h)
  · rcases Nat.le_total a.idx b.idx with hi | hi
    · exact Or.inl (Or.inr ⟨h, hi⟩)
    · exact Or.inr (Or.inr ⟨h.symm, hi⟩)
  · exact Or.inl (Or.inl h)

instance : IsTrans SRec simOrder := by
  constructor
  intro a b c hab hbc
  unfold simOrder at *
  rcases hab with h1 | ⟨h1, h1i⟩
  · rcases hbc with h2 | ⟨h2, _⟩
    · exact Or.inl (h2.trans h1)
    · exact Or.inl (h2 ▸ h1)
  · rcases hbc with h2 | ⟨h2, h2i⟩
    · exact Or.inl (h1 ▸ h2)
    · exact Or.inr ⟨h1.trans h2, h1i.trans h2i⟩

/-- The window LIMIT topN keeps after the first ORDER BY. -/
def searchWindow (st : GraphState) (cos : List ℚ → ℚ) (ns : String)
    (t : ℚ) (topN : ℕ) : List SRec :=
  (List.insertionSort simOrder (passing st cos ns t)).take topN

/-- Endpoints and path weights of all SIMILAR_TO paths of length 1 up
to the given depth starting at cur: an undirected variable-length
expansion with pairwise distinct relationships (Cypher relationship
uniqueness, tracked through the used index list) whose every
relationship weight is at least the threshold.  The weight of a path
is the product of its relationship weights. -/
def pathEnds (edges : List (ℕ × Edge)) (t : ℚ) :
    ℕ → List ℕ → String → List (String × ℚ)
  | 0, _, _ => []
  | d + 1, used, cur =>
    (edges.filterMap (fun ie =>
      if ie.1 ∈ used then none
      else if ie.2.similarity < t then none
      else if ie.2.src = cur then some (ie.1, ie.2.similarity, ie.2.dst)
      else if ie.2.dst = cur then some (ie.1, ie.2.similarity, ie.2.src)
      else none)).flatMap (fun h =>
        (h.2.2, h.2.1) ::
          (pathEnds edges t d (h.1 :: used) h.2.2).map
            (fun p => (p.1, h.2.1 * p.2)))

/-- A fully scored result row of the search query. -/
structure QRec where
  idx : ℕ
  widx : ℕ
  chunk : Chunk
  directSim : ℚ
  relatedEntries : List (Option String × Option ℚ)
  avgKNN : Option ℚ
  combined : Option ℚ
  deriving DecidableEq, Repr

/-- Scoring of one window row.  The OPTIONAL MATCH produces one row
per qualifying path; when no path qualifies it produces a single row
with null relatedNode and null path list, so the collected list holds
one map whose entries are null.  The average is then computed with
Cypher null propagation: reduce over a list containing a null path
similarity is null, and so is the combined score.  The CASE branch
returning 0 fires only on an empty collection, which the null row
makes unreachable. -/
def mkQRec (st : GraphState) (t : ℚ) (knnDepth : ℕ) (widx : ℕ)
    (r : SRec) : QRec :=
  let paths := pathEnds st.edges.enum t knnDepth [] r.chunk.chunkId
  let entries : List (Option String × Option ℚ) :=
    if paths.isEmpty then [(none, none)]
    else paths.map (fun p => (some p.1, some p.2))
  let total := entries.foldl (fun acc x => nadd acc x.2) (some 0)
  let avg := if 0 < entries.length then ndivNat total entries.length
             else some 0
  let combined :=
    nadd (nmul (some r.directSim) (some ((7 : ℚ) / 10)))
         (nmul avg (some ((3 : ℚ) / 10)))
  ⟨r.idx, widx, r.chunk, r.directSim, entries, avg, combined⟩

/-- Descending order on possibly null scores: when ordering DESC,
Neo4j places null values first. -/
def ngeDesc : Option ℚ → Option ℚ → Prop
  | none, _ => True
  | some _, none => False
  | some a, some b => b ≤ a

instance : DecidableRel ngeDesc := fun a b =>
  match a, b with
  | none, _ => isTrue trivial
  | some _, none => isFalse (fun h => h)
  | some x, some y => decidable_of_iff (y ≤ x) Iff.rfl

/-- ORDER BY combinedScore DESC (nulls first), ties resolved by window
position (stable-sort reading of the unspecified tie order). -/
def combOrder (a b : QRec) : Prop :=
  (ngeDesc a.combined b.combined ∧ ¬ ngeDesc b.combined a.combined) ∨
    (a.combined = b.combined ∧ a.widx ≤ b.widx)

instance : DecidableRel combOrder := fun a b =>
  decidable_of_iff
    ((ngeDesc a.combined b.combined ∧ ¬ ngeDesc b.combined a.combined) ∨
      (a.combined = b.combined ∧ a.widx ≤ b.widx))
    Iff.rfl

theorem ngeDesc_total (x y : Option ℚ) : ngeDesc x y ∨ ngeDesc y x := by
  cases x <;> cases y <;> simp [ngeDesc]
  exact le_total _ _

theorem ngeDesc_antisymm {x y : Option ℚ} (h1 : ngeDesc x y)
    (h2 : ngeDesc y x) : x = y := by
  cases x <;> cases y <;> simp_all [ngeDesc]
  exact le_antisymm h2 h1

instance : IsTotal QRec combOrder := by
  constructor
  intro a b
  unfold combOrder
  rcases ngeDesc_total a.combined b.combined with h | h
  · by_cases h2 : ngeDesc b.combined a.combined
    · rcases Nat.le_total a.widx b.widx with hi | hi
      · exact Or.inl (Or.inr ⟨ngeDesc_antisymm h h2, hi⟩)
      · exact Or.inr (Or.inr ⟨ngeDesc_antisymm h2 h, hi⟩)
    · exact Or.inl (Or.inl ⟨h, h2⟩)
  · by_cases h2 : ngeDesc a.combined b.combined
    · rcases Nat.le_total a.widx b.widx with hi | hi
      · exact Or.inl (Or.inr ⟨ngeDesc_antisymm h2 h, hi⟩)
      · exact Or.inr (Or.inr ⟨ngeDesc_antisymm h h2, hi⟩)
    · exact Or.inr (Or.inl ⟨h, h2⟩)

theorem ngeDesc_trans {x y z : Option ℚ} (h1 : ngeDesc x y)
    (h2 : ngeDesc y z) : ngeDesc x z := by
  cases x <;> cases y <;> cases z <;> simp_all [ngeDesc]
  exact h2.trans h1

instance : IsTrans QRec combOrder := by
  constructor
  intro a b c hab hbc
  unfold combOrder at *
  rcases hab with ⟨h1, h1n⟩ | ⟨h1, h1i⟩
  · rcases hbc with ⟨h2, h2n⟩ | ⟨h2, _⟩
    · exact Or.inl ⟨ngeDesc_trans h1 h2,
        fun hc => h1n (ngeDesc_trans h2 hc)⟩
    · exact Or.inl ⟨h2 ▸ h1, h2 ▸ h1n⟩
  · rcases hbc with ⟨h2, h2n⟩ | ⟨h2, h2i⟩
    · exact Or.inl ⟨h1 ▸ h2, h1 ▸ h2n⟩
    · exact Or.inr ⟨h1.trans h2, h1i.trans h2i⟩

/-- The result rows of the search query: score every window row, then
ORDER BY combinedScore DESC LIMIT topN. -/
def searchRecords (st : GraphState) (cos : List ℚ → ℚ) (ns : String)
    (t : ℚ) (topN : ℕ) (knnDepth : ℕ) : List QRec :=
  let window := searchWindow st cos ns t topN
  let qrecs := window.enum.map (fun p => mkQRec st t knnDepth p.1 p.2)
  (List.insertionSort combOrder qrecs).take topN

/-- The record post-filter applied in JS: the docId is parsed out of
the stored metadata blob; filterFilters.includes(undefined) is false,
so a record whose metadata has no docId key is always kept, and the
empty-filterFilters shortcut agrees with list membership on the empty
list. -/
def keepRecord (filters : List String) (q : QRec) : Bool :=
  match q.chunk.metadata.lookup "docId" with
  | some d => ! filters.contains d
  | none => true

/-- The post-filter criterion seen as a predicate on the underlying
chunk: keepRecord only inspects the metadata blob of the record, which
the scoring stage copies unchanged from the window row. -/
def keepChunk (filters : List String) (c : Chunk) : Bool :=
  match c.metadata.lookup "docId" with
  | some d => ! filters.contains d
  | none => true

/-- Result rows surviving the JS filterFilters post-filter, in order. -/
def searchKeptRecords (st : GraphState) (cos : List ℚ → ℚ) (ns : String)
    (t : ℚ) (topN : ℕ) (filters : List String) (knnDepth : ℕ) :
    List QRec :=
  (searchRecords st cos ns t topN knnDepth).filter (keepRecord filters)

/-- The result object assembled by performEnhancedSimilaritySearch on
the success path. -/
structure SearchResult where
  contextTexts : List String
  sources : List (List (String × String))
  scores : List (Option ℚ)
  relatedContexts : List (List (Option String))
  message : Option String
  deriving DecidableEq, Repr

/-- Assembly of the result object from the kept rows (the conditional
operators returning the lists unchanged when nonempty are identities
and are dropped). -/
def runSearchQuery (st : GraphState) (cos : List ℚ → ℚ) (ns : String)
    (t : ℚ) (topN : ℕ) (filters : List String) (knnDepth : ℕ) :
    SearchResult :=
  let kept := searchKeptRecords st cos ns t topN filters knnDepth
  { contextTexts := kept.map (fun q => q.chunk.pageContent)
    sources := kept.map (fun q => q.chunk.metadata)
    scores := kept.map (fun q => q.combined)
    relatedContexts := kept.map (fun q => q.relatedEntries.map (fun e =>
      e.1.bind (fun cid =>
        (st.chunks.find? (fun c => c.chunkId == cid)).map
          (fun c => c.pageContent))))
    message :=
      if kept.length = 0 then
        some ("No results found for namespace " ++ ns ++
          " above similarity threshold " ++ toString t)
      else none }

/-- The value performEnhancedSimilaritySearch resolves with: either
the assembled result object or the object built by handleError, which
holds only the error message. -/
inductive SearchReturn
  | results (r : SearchResult)
  | errorObj (msg : String)
  deriving DecidableEq, Repr

/-- Model of performEnhancedSimilaritySearch.  Failure of the two
awaited collaborator calls (LLMConnector.embedTextInput and
session.run) is injected through the two Option String parameters; a
failure is caught and converted by handleError into an object holding
only the error message.  The event list records which collaborator
calls were issued, in order. -/
def performEnhancedSimilaritySearch (st : GraphState)
    (cos : List ℚ → ℚ) (embedErr queryErr : Option String)
    (ns : String) (t : ℚ) (topN : ℕ) (filters : List String)
    (knnDepth : ℕ) : SearchReturn × List Event :=
  match embedErr with
  | some e => (SearchReturn.errorObj e, [Event.embedText])
  | none =>
    match queryErr with
    | some e => (SearchReturn.errorObj e, [Event.embedText, Event.runQuery])
    | none =>
      (SearchReturn.results (runSearchQuery st cos ns t topN filters knnDepth),
        [Event.embedText, Event.runQuery])

/-- Model of performSimilaritySearch: delegates to the enhanced search
without passing knnDepth, so the default depth 2 applies. -/
def performSimilaritySearch (st : GraphState) (cos : List ℚ → ℚ)
    (embedErr queryErr : Option String) (ns : String) (t : ℚ)
    (topN : ℕ) (filters : List String) : SearchReturn × List Event :=
  performEnhancedSimilaritySearch st cos embedErr queryErr ns t topN filters 2

/-- The value hasNamespace resolves with: the boolean count > 0, or on
a query failure the handleError object holding only the message. -/
inductive BoolReturn
  | bool (b : Bool)
  | errorObj (msg : String)
  deriving DecidableEq, Repr

/-- The value namespaceCount resolves with: the nonnegative count, or
on a query failure the handleError object holding only the message. -/
inductive CountReturn
  | num (n : ℕ)
  | errorObj (msg : String)
  deriving DecidableEq, Repr

/-- Model of hasNamespace: a count query failure is injected through
qErr, caught, and converted by handleError. -/
def hasNamespace (st : GraphState) (qErr : Option String) (ns : String) :
    BoolReturn :=
  match qErr with
  | some e => BoolReturn.errorObj e
  | none => BoolReturn.bool (decide (0 < countNamespace st ns))

/-- Model of namespaceCount: a count query failure is injected through
qErr, caught, and converted by handleError. -/
def namespaceCount (st : GraphState) (qErr : Option String) (ns : String) :
    CountReturn :=
  match qErr with
  | some e => CountReturn.errorObj e
  | none => CountReturn.num (countNamespace st ns)

/-- The value addDocumentToNamespace resolves with: the bare boolean
false for empty pageContent, or the vectorized result object. -/
inductive AddReturn
  | retFalse
  | ok
  | failed (msg : String)
  deriving DecidableEq, Repr

/-- A cached chunk as replayed from cachedVectorInformation: its
metadata blob (whose text entry the code reads back as the page
content, modelled by the explicit text field) and its vector. -/
structure CachedChunk where
  text : String
  values : List ℚ
  meta : List (String × String)
  deriving DecidableEq, Repr

/-- The per-document input of addDocumentToNamespace after the JS
destructuring: docId and pageContent are pulled out of documentData
and every remaining field forms the metadata object, so the stored
metadata blob never regains a docId entry. -/
structure DocumentData where
  docId : String
  pageContent : String
  metadata : List (String × String)
  deriving DecidableEq, Repr

/-- The split-then-embed branch of addDocumentToNamespace.  The text
splitter and the batch embedder are abstract collaborators; the
embedder returning undefined is the none case and an empty batch is
some [].  Both fall into the else branch that throws, which the outer
catch converts to a vectorized false object, with no chunk written.
On success one chunk node is created per returned vector (fresh
chunkIds supplied by the abstract uuid source; the stored metadata is
the document metadata with the chunk text added under the text key),
the cache is stored, and the graph maintenance pipeline runs once. -/
def addDocumentMainPath (st : GraphState) (uuid : ℕ → String)
    (split : String → List String)
    (embed : List String → Option (List (List ℚ)))
    (ns : String) (doc : DocumentData) :
    GraphState × AddReturn × List Event :=
  let textChunks := split doc.pageContent
  match embed textChunks with
  | some vs =>
    if 0 < vs.length then
      let newChunks := vs.enum.map (fun p =>
        Chunk.mk (uuid p.1) doc.docId [ns] (textChunks.getD p.1 "")
          (("text", textChunks.getD p.1 "") :: doc.metadata) (some p.2))
      (⟨st.chunks ++ newChunks, st.edges⟩, AddReturn.ok,
        Event.embedBatch :: (vs.enum.map (fun p => Event.writeChunk p.1)) ++
          [Event.storeCache, Event.maintain])
    else
      (st, AddReturn.failed "Could not embed document chunks!",
        [Event.embedBatch])
  | none =>
    (st, AddReturn.failed "Could not embed document chunks!",
      [Event.embedBatch])

/-- Model of addDocumentToNamespace.  An empty pageContent returns the
bare boolean false before anything happens.  When skipCache is set and
the cache holds chunks for the file they are replayed directly (one
node per cached chunk) and the maintenance pipeline runs once;
otherwise the split-then-embed branch runs.  The returned state is the
store after the call. -/
def addDocumentToNamespace (st : GraphState) (uuid : ℕ → String)
    (cache : Option (List CachedChunk))
    (split : String → List String)
    (embed : List String → Option (List (List ℚ)))
    (ns : String) (doc : DocumentData) (skipCache : Bool) :
    GraphState × AddReturn × List Event :=
  if doc.pageContent = "" then (st, AddReturn.retFalse, [])
  else
    match skipCache, cache with
    | true, some cached =>
      let newChunks := cached.enum.map (fun p =>
        Chunk.mk (uuid p.1) doc.docId [ns] p.2.text p.2.meta
          (some p.2.values))
      (⟨st.chunks ++ newChunks, st.edges⟩, AddReturn.ok,
        (cached.enum.map (fun p => Event.writeChunk p.1)) ++ [Event.maintain])
    | true, none => addDocumentMainPath st uuid split embed ns doc
    | false, _ => addDocumentMainPath st uuid split embed ns doc

/-- Model of the effective deleteDocumentFromNamespace (the second of
the two identically named entries of the object literal, which under
JS duplicate-key semantics overrides the first).  DETACH DELETE
removes the matched chunks and their incident relationships; the
maintenance pipeline runs exactly when at least one chunk was
deleted.  A query failure is injected through qErr, caught, and
converted by handleError. -/
def deleteDocumentFromNamespace (st : GraphState) (qErr : Option String)
    (ns : String) (docId : String) :
    GraphState × BoolReturn × List Event :=
  match qErr with
  | some e => (st, BoolReturn.errorObj e, [Event.deleteQuery])
  | none =>
    let deleted := st.chunks.filter
      (fun c => decide (ns ∈ c.labels ∧ c.docId = docId))
    let remaining := st.chunks.filter
      (fun c => ! decide (ns ∈ c.labels ∧ c.docId = docId))
    let removedIds := deleted.map (fun c => c.chunkId)
    let st2 : GraphState := ⟨remaining,
      st.edges.filter (fun e =>
        ! removedIds.contains e.src && ! removedIds.contains e.dst)⟩
    if 0 < deleted.length then
      (st2, BoolReturn.bool true, [Event.deleteQuery, Event.maintain])
    else
      (st2, BoolReturn.bool false, [Event.deleteQuery])

/-- Steps of the index and graph maintenance pipeline, used to state
which engine calls a maintenance pass issues. -/
inductive MEvent
  | createIndex (dim : ℕ)
  | dropGraph
  | projectGraph
  | deleteEdges
  | knnWrite
  deriving DecidableEq, Repr

/-- Model of getEmbeddingDimensions: the length of the first non-null
embedding, or null when no stored chunk has one.  (The JS coercion of
the query value only turns the absent-record case into null, which the
head of the filtered list already captures.) -/
def getEmbeddingDimensions (st : GraphState) : Option ℕ :=
  ((st.chunks.filterMap Chunk.embedding).head?).map List.length

/-- Model of createOrUpdateVectorIndex as the engine calls it issues:
when no embedding dimension is discovered it logs and returns without
touching the index, otherwise it issues the index creation (an
already-exists answer is treated as success). -/
def createOrUpdateVectorIndex (st : GraphState) : List MEvent :=
  match getEmbeddingDimensions st with
  | none => []
  | some d => [MEvent.createIndex d]

/-- Model of createKNNRelationships as the engine calls it issues:
delete all SIMILAR_TO relationships, then gds.knn.write. -/
def createKNNRelationships : List MEvent :=
  [MEvent.deleteEdges, MEvent.knnWrite]

/-- Model of updateGraphAndRelationships as the engine calls it
issues: the vector index step, then an unconditional drop (when the
projection exists) and re-creation of the graph projection, then the
KNN recomputation. -/
def updateGraphAndRelationships (st : GraphState) (graphExists : Bool) :
    List MEvent :=
  createOrUpdateVectorIndex st ++
    (if graphExists then [MEvent.dropGraph] else []) ++
    [MEvent.projectGraph] ++ createKNNRelationships

/-! Theorems. -/

/-- C10: when the underlying count query fails, hasNamespace and
namespaceCount do not throw and do not return their documented boolean
or nonnegative-integer result: they resolve with the handleError
object holding only the error message, which in particular is not the
count 0, so a caller comparing the result against 0 treats a failed
count as a non-empty namespace. -/
theorem C10_count_error_objects (st : GraphState) (e ns : String) :
    hasNamespace st (some e) ns = BoolReturn.errorObj e ∧
    (∀ b : Bool, hasNamespace st (some e) ns ≠ BoolReturn.bool b) ∧
    namespaceCount st (some e) ns = CountReturn.errorObj e ∧
    (∀ n : ℕ, namespaceCount st (some e) ns ≠ CountReturn.num n) := by
  refine ⟨rfl, ?_, rfl, ?_⟩ <;> intro x h <;>
    simp [hasNamespace, namespaceCount] at h

/-- C9 counterexample: on a store holding one chunk with a null
embedding, dimension discovery returns nothing, yet the maintenance
pass still recreates the graph projection and recomputes the KNN
edges, contradicting the claim that all downstream steps are
skipped. -/
theorem C9_counterexample :
    getEmbeddingDimensions ⟨[⟨"a", "d1", ["ws"], "t", [], none⟩], []⟩ =
      none ∧
    MEvent.projectGraph ∈
      updateGraphAndRelationships
        ⟨[⟨"a", "d1", ["ws"], "t", [], none⟩], []⟩ false ∧
    MEvent.knnWrite ∈
      updateGraphAndRelationships
        ⟨[⟨"a", "d1", ["ws"], "t", [], none⟩], []⟩ false := by
  refine ⟨rfl, ?_, ?_⟩ <;>
    simp [updateGraphAndRelationships, createOrUpdateVectorIndex,
      createKNNRelationships, getEmbeddingDimensions]

/-- C9 amended: when no stored chunk has a non-null embedding,
dimension discovery returns nothing and vector index creation is
skipped (a no-op, not an error), but the projection drop/recreate and
the KNN recomputation are not skipped: they run unconditionally. -/
theorem C9_no_embedding_maintenance (st : GraphState) (g : Bool)
    (h : getEmbeddingDimensions st = none) :
    createOrUpdateVectorIndex st = [] ∧
    updateGraphAndRelationships st g =
      (if g then [MEvent.dropGraph] else []) ++
        [MEvent.projectGraph, MEvent.deleteEdges, MEvent.knnWrite] := by
  have h1 : createOrUpdateVectorIndex st = [] := by
    unfold createOrUpdateVectorIndex
    rw [h]
  refine ⟨h1, ?_⟩
  unfold updateGraphAndRelationships createKNNRelationships
  rw [h1]
  cases g <;> rfl

/-- C9 witness: the amended theorem applied to the empty store. -/
theorem C9_witness :
    createOrUpdateVectorIndex ⟨[], []⟩ = [] ∧
    updateGraphAndRelationships ⟨[], []⟩ false =
      (if false then [MEvent.dropGraph] else []) ++
        [MEvent.projectGraph, MEvent.deleteEdges, MEvent.knnWrite] :=
  C9_no_embedding_maintenance ⟨[], []⟩ false rfl

/-- C6 counterexample: when the embedding call fails, the value
performSimilaritySearch resolves with is the handleError object, not a
result object carrying contextTexts, sources and scores fields. -/
theorem C6_counterexample :
    ¬ ∃ r : SearchResult,
      (performSimilaritySearch ⟨[], []⟩ (fun _ => 0)
        (some "embed failed") none "ws" ((1 : ℚ) / 4) 4 []).1 =
        SearchReturn.results r := by
  rintro ⟨r, h⟩
  simp [performSimilaritySearch, performEnhancedSimilaritySearch] at h

/-- C6 amended: any failure inside the search (embedding failure or
query failure) is caught, never thrown past the boundary, and the
caller receives the structured handleError object holding only the
error message, without contextTexts, sources or scores fields. -/
theorem C6_search_error_policy (st : GraphState) (cos : List ℚ → ℚ)
    (e ns : String) (qErr : Option String) (t : ℚ) (topN : ℕ)
    (filters : List String) :
    (performSimilaritySearch st cos (some e) qErr ns t topN filters).1 =
      SearchReturn.errorObj e ∧
    (performSimilaritySearch st cos none (some e) ns t topN filters).1 =
      SearchReturn.errorObj e :=
  ⟨rfl, rfl⟩

/-- Helper: the empty-pageContent guard of addDocumentToNamespace. -/
theorem addDocument_empty_guard (st : GraphState) (uuid : ℕ → String)
    (cache : Option (List CachedChunk)) (split : String → List String)
    (embed : List String → Option (List (List ℚ))) (ns : String)
    (doc : DocumentData) (skipCache : Bool) (h : doc.pageContent = "") :
    addDocumentToNamespace st uuid cache split embed ns doc skipCache =
      (st, AddReturn.retFalse, []) := by
  unfold addDocumentToNamespace
  rw [if_pos h]

/-- Helper: the split-then-embed branch on a failed or empty batch. -/
theorem addDocumentMainPath_embed_failure (st : GraphState)
    (uuid : ℕ → String) (split : String → List String)
    (embed : List String → Option (List (List ℚ))) (ns : String)
    (doc : DocumentData)
    (hembed : embed (split doc.pageContent) = none ∨
      embed (split doc.pageContent) = some []) :
    addDocumentMainPath st uuid split embed ns doc =
      (st, AddReturn.failed "Could not embed document chunks!",
        [Event.embedBatch]) := by
  rcases hembed with he | he <;> simp [addDocumentMainPath, he]

/-- Helper: a successful split-then-embed branch ends with a single
maintenance call after every other collaborator call. -/
theorem addDocumentMainPath_ok_trailing (st : GraphState)
    (uuid : ℕ → String) (split : String → List String)
    (embed : List String → Option (List (List ℚ))) (ns : String)
    (doc : DocumentData)
    (hok : (addDocumentMainPath st uuid split embed ns doc).2.1 =
      AddReturn.ok) :
    ∃ pre,
      (addDocumentMainPath st uuid split embed ns doc).2.2 =
        pre ++ [Event.maintain] ∧
      Event.maintain ∉ pre := by
  simp only [addDocumentMainPath] at hok ⊢
  cases hembed : embed (split doc.pageContent) with
  | none =>
    rw [hembed] at hok
    simp at hok
  | some vs =>
    rw [hembed] at hok
    by_cases hlen : 0 < vs.length
    · refine ⟨Event.embedBatch ::
        (vs.enum.map (fun p => Event.writeChunk p.1)) ++ [Event.storeCache],
        ?_, ?_⟩ <;> simp [hlen]
    · simp [hlen] at hok

/-- C7: addDocumentToNamespace with empty pageContent returns the bare
boolean false as a no-op (state unchanged, no collaborator call, no
error object); and when the batch embedding call yields an undefined
or empty result, the call fails with a vectorized-false error object
and commits no chunk of the document (state unchanged, no write
event). -/
theorem C7_add_document_guards :
    (∀ (st : GraphState) (uuid : ℕ → String)
       (cache : Option (List CachedChunk)) (split : String → List String)
       (embed : List String → Option (List (List ℚ))) (ns : String)
       (doc : DocumentData) (skipCache : Bool),
       doc.pageContent = "" →
       addDocumentToNamespace st uuid cache split embed ns doc skipCache =
         (st, AddReturn.retFalse, [])) ∧
    (∀ (st : GraphState) (uuid : ℕ → String)
       (cache : Option (List CachedChunk)) (split : String → List String)
       (embed : List String → Option (List (List ℚ))) (ns : String)
       (doc : DocumentData) (skipCache : Bool),
       doc.pageContent ≠ "" →
       (skipCache = false ∨ cache = none) →
       (embed (split doc.pageContent) = none ∨
         embed (split doc.pageContent) = some []) →
       addDocumentToNamespace st uuid cache split embed ns doc skipCache =
         (st, AddReturn.failed "Could not embed document chunks!",
           [Event.embedBatch])) := by
  constructor
  · intro st uuid cache split embed ns doc skipCache h
    exact addDocument_empty_guard st uuid cache split embed ns doc skipCache h
  · intro st uuid cache split embed ns doc skipCache h hcache hembed
    have hmain := addDocumentMainPath_embed_failure st uuid split embed ns
      doc hembed
    unfold addDocumentToNamespace
    rw [if_neg h]
    rcases hcache with hc | hc
    · subst hc
      cases cache <;> exact hmain
    · subst hc
      cases skipCache <;> exact hmain

/-- C7 witness: both guards applied to concrete inputs. -/
theorem C7_witness :
    addDocumentToNamespace ⟨[], []⟩ (fun _ => "u") none (fun _ => [])
        (fun _ => none) "ws" ⟨"d1", "", []⟩ false =
      (⟨[], []⟩, AddReturn.retFalse, []) ∧
    addDocumentToNamespace ⟨[], []⟩ (fun _ => "u") none (fun s => [s])
        (fun _ => none) "ws" ⟨"d1", "body", []⟩ false =
      (⟨[], []⟩, AddReturn.failed "Could not embed document chunks!",
        [Event.embedBatch]) :=
  ⟨C7_add_document_guards.1 ⟨[], []⟩ (fun _ => "u") none (fun _ => [])
      (fun _ => none) "ws" ⟨"d1", "", []⟩ false rfl,
    C7_add_document_guards.2 ⟨[], []⟩ (fun _ => "u") none (fun s => [s])
      (fun _ => none) "ws" ⟨"d1", "body", []⟩ false
      (by simp) (Or.inl rfl) (Or.inl rfl)⟩

/-- C8: within every addDocumentToNamespace call that succeeds, the
maintenance pipeline runs exactly once, as the last collaborator call,
strictly after every chunk write (never per chunk); and the effective
deleteDocumentFromNamespace runs the pipeline exactly once after a
delete that removed at least one chunk, and not at all after a delete
that removed nothing. -/
theorem C8_maintenance_trigger :
    (∀ (st : GraphState) (uuid : ℕ → String)
       (cache : Option (List CachedChunk)) (split : String → List String)
       (embed : List String → Option (List (List ℚ))) (ns : String)
       (doc : DocumentData) (skipCache : Bool),
       (addDocumentToNamespace st uuid cache split embed ns doc
         skipCache).2.1 = AddReturn.ok →
       ∃ pre,
         (addDocumentToNamespace st uuid cache split embed ns doc
           skipCache).2.2 = pre ++ [Event.maintain] ∧
         Event.maintain ∉ pre) ∧
    (∀ (st : GraphState) (ns docId : String),
       (0 < (st.chunks.filter
           (fun c => decide (ns ∈ c.labels ∧ c.docId = docId))).length →
         (deleteDocumentFromNamespace st none ns docId).2.2 =
           [Event.deleteQuery, Event.maintain]) ∧
       ((st.chunks.filter
           (fun c => decide (ns ∈ c.labels ∧ c.docId = docId))).length = 0 →
         (deleteDocumentFromNamespace st none ns docId).2.2 =
           [Event.deleteQuery])) := by
  constructor
  · intro st uuid cache split embed ns doc skipCache hok
    by_cases hpc : doc.pageContent = ""
    · rw [addDocument_empty_guard st uuid cache split embed ns doc
        skipCache hpc] at hok
      exact absurd hok (by simp)
    · unfold addDocumentToNamespace at hok ⊢
      rw [if_neg hpc] at hok ⊢
      rcases skipCache with _ | _ <;> rcases cache with _ | cached
      · exact addDocumentMainPath_ok_trailing st uuid split embed ns doc hok
      · exact addDocumentMainPath_ok_trailing st uuid split embed ns doc hok
      · exact addDocumentMainPath_ok_trailing st uuid split embed ns doc hok
      · refine ⟨cached.enum.map (fun p => Event.writeChunk p.1), rfl, ?_⟩
        simp
  · intro st ns docId
    constructor
    · intro hpos
      unfold deleteDocumentFromNamespace
      simp only [if_pos hpos]
    · intro hz
      unfold deleteDocumentFromNamespace
      simp only [hz]
      rfl

/-- C8 witness: the trigger discipline applied to a concrete
successful insertion, a concrete delete that removed one chunk, and a
concrete delete that removed nothing. -/
theorem C8_witness :
    (∃ pre,
      (addDocumentToNamespace ⟨[], []⟩ (fun _ => "u") none (fun s => [s])
        (fun _ => some [[1]]) "ws" ⟨"d1", "body", []⟩ false).2.2 =
        pre ++ [Event.maintain] ∧
      Event.maintain ∉ pre) ∧
    (deleteDocumentFromNamespace ⟨[⟨"a", "d1", ["ws"], "t", [], none⟩], []⟩
        none "ws" "d1").2.2 = [Event.deleteQuery, Event.maintain] ∧
    (deleteDocumentFromNamespace ⟨[], []⟩ none "ws" "d1").2.2 =
      [Event.deleteQuery] :=
  ⟨C8_maintenance_trigger.1 ⟨[], []⟩ (fun _ => "u") none (fun s => [s])
      (fun _ => some [[1]]) "ws" ⟨"d1", "body", []⟩ false rfl,
    (C8_maintenance_trigger.2 ⟨[⟨"a", "d1", ["ws"], "t", [], none⟩], []⟩
      "ws" "d1").1 (by decide),
    (C8_maintenance_trigger.2 ⟨[], []⟩ "ws" "d1").2 rfl⟩

/-- C1 counterexample: on an empty namespace the search still invokes
the embedder (and issues the similarity query), contradicting the
claim that the embedder is never invoked when the chunk count is 0. -/
theorem C1_counterexample :
    countNamespace ⟨[], []⟩ "ws" = 0 ∧
    ¬ (Event.embedText ∉
        (performSimilaritySearch ⟨[], []⟩ (fun _ => 0) none none "ws"
          ((1 : ℚ) / 4) 4 []).2) :=
  ⟨rfl, by
    simp [performSimilaritySearch, performEnhancedSimilaritySearch]⟩

/-- C1 amended: on a namespace whose chunk count is 0 the search
returns a result with empty contextTexts, sources and scores and a
non-null message, but the embedder is still invoked and the similarity
query is still issued to the backing engine. -/
theorem C1_empty_namespace_result (st : GraphState) (cos : List ℚ → ℚ)
    (ns : String) (t : ℚ) (topN : ℕ) (filters : List String)
    (knnDepth : ℕ) (h : countNamespace st ns = 0) :
    (runSearchQuery st cos ns t topN filters knnDepth).contextTexts = [] ∧
    (runSearchQuery st cos ns t topN filters knnDepth).sources = [] ∧
    (runSearchQuery st cos ns t topN filters knnDepth).scores = [] ∧
    (runSearchQuery st cos ns t topN filters knnDepth).message ≠ none ∧
    (performEnhancedSimilaritySearch st cos none none ns t topN filters
      knnDepth).2 = [Event.embedText, Event.runQuery] := by
  have hnil : nsCandidates st ns = [] := List.length_eq_zero.mp h
  have hkept : searchKeptRecords st cos ns t topN filters knnDepth = [] := by
    simp [searchKeptRecords, searchRecords, searchWindow, passing, hnil]
  refine ⟨?_, ?_, ?_, ?_, rfl⟩ <;> simp [runSearchQuery, hkept]

/-- C1 witness: the amended theorem applied to the empty store. -/
theorem C1_witness :
    (runSearchQuery ⟨[], []⟩ (fun _ => 0) "ws" ((1 : ℚ) / 4) 4 [] 2
      ).contextTexts = [] ∧
    (runSearchQuery ⟨[], []⟩ (fun _ => 0) "ws" ((1 : ℚ) / 4) 4 [] 2
      ).sources = [] ∧
    (runSearchQuery ⟨[], []⟩ (fun _ => 0) "ws" ((1 : ℚ) / 4) 4 [] 2
      ).scores = [] ∧
    (runSearchQuery ⟨[], []⟩ (fun _ => 0) "ws" ((1 : ℚ) / 4) 4 [] 2
      ).message ≠ none ∧
    (performEnhancedSimilaritySearch ⟨[], []⟩ (fun _ => 0) none none "ws"
      ((1 : ℚ) / 4) 4 [] 2).2 = [Event.embedText, Event.runQuery] :=
  C1_empty_namespace_result ⟨[], []⟩ (fun _ => 0) "ws" ((1 : ℚ) / 4) 4 [] 2
    rfl

/-- Helper: characterisation of rows passing the direct filter. -/
theorem mem_passing_iff {st : GraphState} {cos : List ℚ → ℚ} {ns : String}
    {t : ℚ} {a : SRec} :
    a ∈ passing st cos ns t ↔
      ∃ p ∈ (nsCandidates st ns).enum, ∃ emb,
        p.2.embedding = some emb ∧ t ≤ cos emb ∧ a = ⟨p.1, p.2, cos emb⟩ := by
  unfold passing
  rw [List.mem_filterMap]
  constructor
  · rintro ⟨p, hp, hf⟩
    cases hemb : p.2.embedding with
    | none =>
      simp only [hemb] at hf
      exact absurd hf (by simp)
    | some emb =>
      simp only [hemb] at hf
      by_cases hle : t ≤ cos emb
      · rw [if_pos hle] at hf
        exact ⟨p, hp, emb, hemb, hle, (Option.some.inj hf).symm⟩
      · rw [if_neg hle] at hf
        exact absurd hf (by simp)
  · rintro ⟨p, hp, emb, hemb, hle, ha⟩
    refine ⟨p, hp, ?_⟩
    simp only [hemb, if_pos hle]
    rw [ha]

/-- Helper: every passing row meets the threshold. -/
theorem mem_passing_directSim {st : GraphState} {cos : List ℚ → ℚ}
    {ns : String} {t : ℚ} {a : SRec} (ha : a ∈ passing st cos ns t) :
    t ≤ a.directSim := by
  rcases mem_passing_iff.mp ha with ⟨p, _, emb, _, hle, rfl⟩
  exact hle

/-- Helper: window rows are passing rows. -/
theorem window_subset_passing {st : GraphState} {cos : List ℚ → ℚ}
    {ns : String} {t : ℚ} {topN : ℕ} {r : SRec}
    (hr : r ∈ searchWindow st cos ns t topN) : r ∈ passing st cos ns t := by
  unfold searchWindow at hr
  exact (List.perm_insertionSort _ _).subset ((List.take_sublist _ _).subset hr)

/-- Helper: every returned record is the scoring of some window row. -/
theorem mem_searchRecords_elim {st : GraphState} {cos : List ℚ → ℚ}
    {ns : String} {t : ℚ} {topN knnDepth : ℕ} {q : QRec}
    (hq : q ∈ searchRecords st cos ns t topN knnDepth) :
    ∃ w r, r ∈ searchWindow st cos ns t topN ∧
      q = mkQRec st t knnDepth w r := by
  simp only [searchRecords] at hq
  have h1 := (List.take_sublist _ _).subset hq
  have h2 := (List.perm_insertionSort combOrder _).subset h1
  rcases List.mem_map.mp h2 with ⟨p, hp, hq2⟩
  refine ⟨p.1, p.2, ?_, hq2.symm⟩
  have h3 : p.2 ∈ (searchWindow st cos ns t topN).enum.map Prod.snd :=
    List.mem_map_of_mem Prod.snd hp
  rwa [List.enum_map_snd] at h3

/-- Helper: Cypher fold of null-free path similarities. -/
theorem foldl_nadd_some {α : Type} (g : α → ℚ) (l : List α) (a : ℚ) :
    l.foldl (fun acc x => nadd acc (some (g x))) (some a) =
      some (a + (l.map g).sum) := by
  induction l generalizing a with
  | nil => simp
  | cons x xs ih =>
    have h1 : nadd (some a) (some (g x)) = some (a + g x) := rfl
    simp only [List.foldl_cons, h1, ih, List.map_cons, List.sum_cons]
    rw [add_assoc]

/-- C3 counterexample: a returned chunk with no neighbor surviving the
edge-weight filter carries a null combined score, not
0.7 times its direct similarity plus 0.3 times an average of 0. -/
theorem C3_counterexample :
    ¬ ∀ q ∈ searchKeptRecords
        ⟨[⟨"a", "d1", ["ws"], "ta", [], some [1]⟩], []⟩
        (fun _ => (1 : ℚ) / 2) "ws" ((1 : ℚ) / 4) 4 [] 2,
      q.combined = some (q.directSim * ((7 : ℚ) / 10) +
        0 * ((3 : ℚ) / 10)) := by
  decide

/-- C3 amended: for every returned record, when at least one path
survives the edge-weight filter the combined score is 0.7 times the
direct similarity plus 0.3 times the mean of the path similarities
(products of edge weights along paths of at most knnDepth hops whose
every edge weight meets the threshold); but when no neighbor survives,
the collected null placeholder row makes the average and the combined
score null (not 0). -/
theorem C3_combined_score_semantics (st : GraphState) (cos : List ℚ → ℚ)
    (ns : String) (t : ℚ) (topN : ℕ) (filters : List String)
    (knnDepth : ℕ) :
    ∀ q ∈ searchKeptRecords st cos ns t topN filters knnDepth,
      (pathEnds st.edges.enum t knnDepth [] q.chunk.chunkId = [] →
        q.combined = none) ∧
      (pathEnds st.edges.enum t knnDepth [] q.chunk.chunkId ≠ [] →
        q.combined = some (q.directSim * ((7 : ℚ) / 10) +
          (((pathEnds st.edges.enum t knnDepth [] q.chunk.chunkId).map
              Prod.snd).sum /
            ((pathEnds st.edges.enum t knnDepth []
              q.chunk.chunkId).length : ℚ)) * ((3 : ℚ) / 10))) := by
  intro q hq
  have hq2 : q ∈ searchRecords st cos ns t topN knnDepth :=
    List.mem_of_mem_filter hq
  rcases mem_searchRecords_elim hq2 with ⟨w, r, _, rfl⟩
  simp only [mkQRec]
  constructor
  · intro hp
    simp [hp, nadd, nmul, ndivNat]
  · intro hp
    have hie : (pathEnds st.edges.enum t knnDepth [] r.chunk.chunkId
        ).isEmpty = false := by
      simpa [List.isEmpty_iff] using hp
    have hlen : 0 < (pathEnds st.edges.enum t knnDepth []
        r.chunk.chunkId).length := List.length_pos.mpr hp
    simp only [hie, Bool.false_eq_true, if_false, List.foldl_map,
      List.length_map]
    rw [foldl_nadd_some Prod.snd _ 0]
    simp [nadd, nmul, ndivNat, hlen, zero_add]

/-- C3 witness: the amended semantics applied to a store whose single
namespace chunk has no SIMILAR_TO neighbor at all. -/
theorem C3_witness :
    (pathEnds (GraphState.mk [⟨"a", "d1", ["ws"], "ta", [], some [1]⟩]
        []).edges.enum ((1 : ℚ) / 4) 2 []
        (QRec.mk 0 0 ⟨"a", "d1", ["ws"], "ta", [], some [1]⟩ ((1 : ℚ) / 2)
          [(none, none)] none none).chunk.chunkId = [] →
      (QRec.mk 0 0 ⟨"a", "d1", ["ws"], "ta", [], some [1]⟩ ((1 : ℚ) / 2)
        [(none, none)] none none).combined = none) ∧
    (pathEnds (GraphState.mk [⟨"a", "d1", ["ws"], "ta", [], some [1]⟩]
        []).edges.enum ((1 : ℚ) / 4) 2 []
        (QRec.mk 0 0 ⟨"a", "d1", ["ws"], "ta", [], some [1]⟩ ((1 : ℚ) / 2)
          [(none, none)] none none).chunk.chunkId ≠ [] →
      (QRec.mk 0 0 ⟨"a", "d1", ["ws"], "ta", [], some [1]⟩ ((1 : ℚ) / 2)
        [(none, none)] none none).combined =
        some ((QRec.mk 0 0 ⟨"a", "d1", ["ws"], "ta", [], some [1]⟩
            ((1 : ℚ) / 2) [(none, none)] none none).directSim *
            ((7 : ℚ) / 10) +
          (((pathEnds (GraphState.mk
              [⟨"a", "d1", ["ws"], "ta", [], some [1]⟩] []).edges.enum
              ((1 : ℚ) / 4) 2 []
              (QRec.mk 0 0 ⟨"a", "d1", ["ws"], "ta", [], some [1]⟩
                ((1 : ℚ) / 2) [(none, none)] none none).chunk.chunkId).map
              Prod.snd).sum /
            ((pathEnds (GraphState.mk
              [⟨"a", "d1", ["ws"], "ta", [], some [1]⟩] []).edges.enum
              ((1 : ℚ) / 4) 2 []
              (QRec.mk 0 0 ⟨"a", "d1", ["ws"], "ta", [], some [1]⟩
                ((1 : ℚ) / 2) [(none, none)] none none
                ).chunk.chunkId).length : ℚ)) * ((3 : ℚ) / 10))) :=
  C3_combined_score_semantics
    ⟨[⟨"a", "d1", ["ws"], "ta", [], some [1]⟩], []⟩
    (fun _ => (1 : ℚ) / 2) "ws" ((1 : ℚ) / 4) 4 [] 2
    (QRec.mk 0 0 ⟨"a", "d1", ["ws"], "ta", [], some [1]⟩ ((1 : ℚ) / 2)
      [(none, none)] none none) (by decide)

/-- C4 counterexample: with the single stored chunk belonging to the
excluded docId d1 but carrying a metadata blob without a docId entry,
the search returns that chunk even though its docId is excluded. -/
theorem C4_counterexample :
    ¬ ∀ q ∈ searchKeptRecords
        ⟨[⟨"a", "d1", ["ws"], "ta", [], some [1]⟩], []⟩
        (fun _ => (1 : ℚ) / 2) "ws" ((1 : ℚ) / 4) 4 ["d1"] 2,
      q.chunk.docId ∉ ["d1"] := by
  decide

/-- C4 amended: exclusion is a post-filter over the already ranked and
limited records, keyed on the docId parsed from the stored metadata
blob: the kept records with a non-empty exclusion list form a sublist
of the records kept with no exclusion (ranking and topN selection are
computed over all namespace chunks, excluded ones included), and every
kept record either has no docId entry in its metadata (and is then
never excluded, whatever its node docId) or has one outside the
exclusion list. -/
theorem C4_exclusion_post_filter (st : GraphState) (cos : List ℚ → ℚ)
    (ns : String) (t : ℚ) (topN : ℕ) (filters : List String)
    (knnDepth : ℕ) :
    (searchKeptRecords st cos ns t topN filters knnDepth).Sublist
      (searchKeptRecords st cos ns t topN [] knnDepth) ∧
    ∀ q ∈ searchKeptRecords st cos ns t topN filters knnDepth,
      q.chunk.metadata.lookup "docId" = none ∨
        ∃ d, q.chunk.metadata.lookup "docId" = some d ∧ d ∉ filters := by
  constructor
  · have hall : searchKeptRecords st cos ns t topN [] knnDepth =
        searchRecords st cos ns t topN knnDepth := by
      unfold searchKeptRecords
      apply List.filter_eq_self.mpr
      intro q _
      unfold keepRecord
      cases q.chunk.metadata.lookup "docId" <;> simp
    rw [hall]
    exact List.filter_sublist _
  · intro q hq
    have hk : keepRecord filters q = true := List.of_mem_filter hq
    unfold keepRecord at hk
    cases hd : q.chunk.metadata.lookup "docId" with
    | none => exact Or.inl rfl
    | some d =>
      rw [hd] at hk
      refine Or.inr ⟨d, rfl, ?_⟩
      simpa using hk

/-- C4 witness: the amended statement applied to a store with one
chunk whose metadata carries docId d1, excluded under filters
containing only d2. -/
theorem C4_witness :
    (searchKeptRecords ⟨[⟨"a", "d1", ["ws"], "ta", [("docId", "d1")],
        some [1]⟩], []⟩ (fun _ => (1 : ℚ) / 2) "ws" ((1 : ℚ) / 4) 4
        ["d2"] 2).Sublist
      (searchKeptRecords ⟨[⟨"a", "d1", ["ws"], "ta", [("docId", "d1")],
        some [1]⟩], []⟩ (fun _ => (1 : ℚ) / 2) "ws" ((1 : ℚ) / 4) 4
        [] 2) ∧
    ((QRec.mk 0 0 ⟨"a", "d1", ["ws"], "ta", [("docId", "d1")], some [1]⟩
        ((1 : ℚ) / 2) [(none, none)] none none
        ).chunk.metadata.lookup "docId" = none ∨
      ∃ d, (QRec.mk 0 0 ⟨"a", "d1", ["ws"], "ta", [("docId", "d1")],
        some [1]⟩ ((1 : ℚ) / 2) [(none, none)] none none
        ).chunk.metadata.lookup "docId" = some d ∧ d ∉ ["d2"]) :=
  ⟨(C4_exclusion_post_filter ⟨[⟨"a", "d1", ["ws"], "ta",
      [("docId", "d1")], some [1]⟩], []⟩ (fun _ => (1 : ℚ) / 2) "ws"
      ((1 : ℚ) / 4) 4 ["d2"] 2).1,
    (C4_exclusion_post_filter ⟨[⟨"a", "d1", ["ws"], "ta",
      [("docId", "d1")], some [1]⟩], []⟩ (fun _ => (1 : ℚ) / 2) "ws"
      ((1 : ℚ) / 4) 4 ["d2"] 2).2
      (QRec.mk 0 0 ⟨"a", "d1", ["ws"], "ta", [("docId", "d1")], some [1]⟩
        ((1 : ℚ) / 2) [(none, none)] none none) (by decide)⟩

/-- Helper: ngeDesc is reflexive. -/
theorem ngeDesc_refl (x : Option ℚ) : ngeDesc x x := by
  cases x <;> simp [ngeDesc]

/-- Helper: the final ordering implies descending scores. -/
theorem combOrder_to_ngeDesc {a b : QRec} (h : combOrder a b) :
    ngeDesc a.combined b.combined := by
  rcases h with ⟨h1, _⟩ | ⟨h1, _⟩
  · exact h1
  · rw [h1]
    exact ngeDesc_refl _

/-- C2 counterexample: in the spec scenario a returned combined score
can fall strictly below the similarity threshold (direct similarity
exactly at the threshold 1/4, average path similarity 5/32, combined
score 71/320 < 1/4). -/
theorem C2_counterexample :
    ¬ ∀ s ∈ (runSearchQuery
        ⟨[⟨"a", "d1", ["ws"], "ta", [], some [1]⟩,
          ⟨"b", "d1", ["ws"], "tb", [], some [2]⟩,
          ⟨"c", "d2", ["ws"], "tc", [], some [3]⟩],
          [⟨"a", "b", (1 : ℚ) / 4⟩, ⟨"b", "c", (1 : ℚ) / 4⟩]⟩
        (fun emb => if emb = [(1 : ℚ)] then (1 : ℚ) / 4 else 0)
        "ws" ((1 : ℚ) / 4) 2 [] 2).scores,
      ∃ q : ℚ, s = some q ∧ (1 : ℚ) / 4 ≤ q := by
  decide

/-- C2 amended: for every search that succeeds, the result list has
length at most topN and the returned scores are ordered descending
(null scores first); each returned record has a DIRECT similarity at
least the threshold, but its returned combined score can fall below
the threshold (or be null). -/
theorem C2_result_bounds (st : GraphState) (cos : List ℚ → ℚ)
    (ns : String) (t : ℚ) (topN : ℕ) (filters : List String)
    (knnDepth : ℕ) :
    (runSearchQuery st cos ns t topN filters knnDepth).scores.length ≤
      topN ∧
    List.Pairwise ngeDesc
      (runSearchQuery st cos ns t topN filters knnDepth).scores ∧
    ∀ q ∈ searchKeptRecords st cos ns t topN filters knnDepth,
      t ≤ q.directSim := by
  have hrec : List.Pairwise combOrder
      (searchRecords st cos ns t topN knnDepth) := by
    simp only [searchRecords]
    exact List.Pairwise.sublist (List.take_sublist _ _)
      (List.sorted_insertionSort _ _)
  have hkept : List.Pairwise combOrder
      (searchKeptRecords st cos ns t topN filters knnDepth) :=
    List.Pairwise.sublist (List.filter_sublist _) hrec
  refine ⟨?_, ?_, ?_⟩
  · simp only [runSearchQuery, List.length_map]
    calc (searchKeptRecords st cos ns t topN filters knnDepth).length
        ≤ (searchRecords st cos ns t topN knnDepth).length :=
          (List.filter_sublist _).length_le
      _ ≤ topN := by
          simp only [searchRecords]
          exact List.length_take_le _ _
  · simp only [runSearchQuery]
    exact hkept.map _ (fun a b hab => combOrder_to_ngeDesc hab)
  · intro q hq
    have hq2 : q ∈ searchRecords st cos ns t topN knnDepth :=
      List.mem_of_mem_filter hq
    rcases mem_searchRecords_elim hq2 with ⟨w, r, hr, rfl⟩
    exact mem_passing_directSim (window_subset_passing hr)

/-- C2 witness: the amended bounds applied to a store with one
namespace chunk of direct similarity 1/2 against threshold 1/4. -/
theorem C2_witness :
    (runSearchQuery ⟨[⟨"a", "d1", ["ws"], "ta", [], some [1]⟩], []⟩
        (fun _ => (1 : ℚ) / 2) "ws" ((1 : ℚ) / 4) 4 [] 2
        ).scores.length ≤ 4 ∧
    List.Pairwise ngeDesc
      (runSearchQuery ⟨[⟨"a", "d1", ["ws"], "ta", [], some [1]⟩], []⟩
        (fun _ => (1 : ℚ) / 2) "ws" ((1 : ℚ) / 4) 4 [] 2).scores ∧
    (1 : ℚ) / 4 ≤ (QRec.mk 0 0 ⟨"a", "d1", ["ws"], "ta", [], some [1]⟩
      ((1 : ℚ) / 2) [(none, none)] none none).directSim :=
  ⟨(C2_result_bounds ⟨[⟨"a", "d1", ["ws"], "ta", [], some [1]⟩], []⟩
      (fun _ => (1 : ℚ) / 2) "ws" ((1 : ℚ) / 4) 4 [] 2).1,
    (C2_result_bounds ⟨[⟨"a", "d1", ["ws"], "ta", [], some [1]⟩], []⟩
      (fun _ => (1 : ℚ) / 2) "ws" ((1 : ℚ) / 4) 4 [] 2).2.1,
    (C2_result_bounds ⟨[⟨"a", "d1", ["ws"], "ta", [], some [1]⟩], []⟩
      (fun _ => (1 : ℚ) / 2) "ws" ((1 : ℚ) / 4) 4 [] 2).2.2
      (QRec.mk 0 0 ⟨"a", "d1", ["ws"], "ta", [], some [1]⟩ ((1 : ℚ) / 2)
        [(none, none)] none none) (by decide)⟩

/-- Helper: filterMap with a pointwise-stronger function gives a
sublist. -/
theorem filterMap_sublist_of_imp {α β : Type} {f g : α → Option β}
    (h : ∀ a b, f a = some b → g a = some b) :
    ∀ l : List α, (l.filterMap f).Sublist (l.filterMap g) := by
  intro l
  induction l with
  | nil => simp
  | cons x xs ih =>
    rw [List.filterMap_cons, List.filterMap_cons]
    cases hf : f x with
    | none =>
      cases hg : g x with
      | none => exact ih
      | some b => exact ih.cons b
    | some b =>
      rw [h x b hf]
      exact ih.cons₂ b

/-- Helper: raising the threshold shrinks the passing rows to a
sublist. -/
theorem passing_sublist {st : GraphState} {cos : List ℚ → ℚ}
    {ns : String} {t t' : ℚ} (htt : t ≤ t') :
    (passing st cos ns t').Sublist (passing st cos ns t) := by
  unfold passing
  apply filterMap_sublist_of_imp
  intro p a hf
  cases hemb : p.2.embedding with
  | none => simp [hemb] at hf
  | some emb =>
    simp only [hemb] at hf ⊢
    by_cases hle : t' ≤ cos emb
    · rw [if_pos hle] at hf
      rw [if_pos (htt.trans hle)]
      exact hf
    · rw [if_neg hle] at hf
      exact absurd hf (by simp)

/-- Helper: the image of a filterMap is a sublist of a compatible
image of the base list. -/
theorem map_filterMap_sublist {α β γ : Type} {f : α → Option β}
    {g : β → γ} {h : α → γ} (hc : ∀ a b, f a = some b → g b = h a) :
    ∀ l : List α, ((l.filterMap f).map g).Sublist (l.map h) := by
  intro l
  induction l with
  | nil => simp
  | cons x xs ih =>
    rw [List.filterMap_cons, List.map_cons]
    cases hf : f x with
    | none => exact ih.cons _
    | some b =>
      rw [List.map_cons, hc x b hf]
      exact ih.cons₂ _

/-- Helper: candidate positions of the passing rows are distinct. -/
theorem passing_idx_map_nodup (st : GraphState) (cos : List ℚ → ℚ)
    (ns : String) (t : ℚ) :
    ((passing st cos ns t).map SRec.idx).Nodup := by
  have hsub : ((passing st cos ns t).map SRec.idx).Sublist
      ((nsCandidates st ns).enum.map Prod.fst) := by
    unfold passing
    apply map_filterMap_sublist
    intro p a hf
    cases hemb : p.2.embedding with
    | none => simp [hemb] at hf
    | some emb =>
      simp only [hemb] at hf
      by_cases hle : t ≤ cos emb
      · rw [if_pos hle] at hf
        rw [← Option.some.inj hf]
      · rw [if_neg hle] at hf
        exact absurd hf (by simp)
  refine hsub.nodup ?_
  rw [List.enum_map_fst]
  exact List.nodup_range _

/-- Helper: the passing rows are pairwise distinct. -/
theorem nodup_passing (st : GraphState) (cos : List ℚ → ℚ) (ns : String)
    (t : ℚ) : (passing st cos ns t).Nodup :=
  List.Nodup.of_map SRec.idx (passing_idx_map_nodup st cos ns t)

/-- Helper: a passing row is determined by its candidate position. -/
theorem passing_idx_inj {st : GraphState} {cos : List ℚ → ℚ}
    {ns : String} {t : ℚ} {a b : SRec} (ha : a ∈ passing st cos ns t)
    (hb : b ∈ passing st cos ns t) (hidx : a.idx = b.idx) : a = b :=
  List.inj_on_of_nodup_map (passing_idx_map_nodup st cos ns t) ha hb hidx

/-- Helper: the sort order is antisymmetric on the passing rows. -/
theorem passing_antisymm {st : GraphState} {cos : List ℚ → ℚ}
    {ns : String} {t : ℚ} {a b : SRec} (ha : a ∈ passing st cos ns t)
    (hb : b ∈ passing st cos ns t) (hab : simOrder a b)
    (hba : simOrder b a) : a = b := by
  have hidx : a.idx = b.idx := by
    rcases hab with h1 | ⟨h1, h1i⟩ <;> rcases hba with h2 | ⟨h2, h2i⟩
    · exact absurd h1 (lt_asymm h2)
    · exact absurd (h2 ▸ h1) (lt_irrefl _)
    · exact absurd (h1 ▸ h2) (lt_irrefl _)
    · exact Nat.le_antisymm h1i h2i
  exact passing_idx_inj ha hb hidx

/-- Helper: a row sorting before a row that passes the raised
threshold passes the raised threshold itself. -/
theorem passing_closure {st : GraphState} {cos : List ℚ → ℚ}
    {ns : String} {t t' : ℚ} {x y : SRec}
    (hx : x ∈ passing st cos ns t) (hy : y ∈ passing st cos ns t')
    (hxy : simOrder x y) : x ∈ passing st cos ns t' := by
  have hyd : t' ≤ y.directSim := mem_passing_directSim hy
  rcases mem_passing_iff.mp hx with ⟨p, hp, emb, hemb, _, rfl⟩
  refine mem_passing_iff.mpr ⟨p, hp, emb, hemb, ?_, rfl⟩
  rcases hxy with hlt | ⟨heq, _⟩
  · exact hyd.trans hlt.le
  · exact le_of_le_of_eq hyd heq.symm

/-- Helper: in a sorted duplicate-free list whose order is
antisymmetric on its members, membership in the n-prefix is counting
the members sorting strictly before. -/
theorem mem_take_sorted_iff {α : Type} (r : α → α → Prop)
    [DecidableRel r] :
    ∀ s : List α, List.Sorted r s → s.Nodup →
      (∀ x ∈ s, ∀ y ∈ s, r x y → r y x → x = y) →
      ∀ a ∈ s, ∀ n : ℕ,
        (a ∈ s.take n ↔
          (s.filter (fun b => decide (r b a) && ! decide (r a b))).length <
            n) := by
  intro s
  induction s with
  | nil =>
    intro _ _ _ a ha
    cases ha
  | cons x s ih =>
    intro hs hnd hanti a ha n
    have hsx : ∀ b ∈ s, r x b := (List.sorted_cons.mp hs).1
    have hss : List.Sorted r s := (List.sorted_cons.mp hs).2
    have hxs : x ∉ s := (List.nodup_cons.mp hnd).1
    have hnds : s.Nodup := (List.nodup_cons.mp hnd).2
    have hantis : ∀ u ∈ s, ∀ v ∈ s, r u v → r v u → u = v :=
      fun u hu v hv => hanti u (List.mem_cons_of_mem x hu) v
        (List.mem_cons_of_mem x hv)
    rcases List.mem_cons.mp ha with rfl | has
    · have hnil : (a :: s).filter
          (fun b => decide (r b a) && ! decide (r a b)) = [] := by
        rw [List.filter_eq_nil_iff]
        intro b hb
        rcases List.mem_cons.mp hb with rfl | hbs
        · simp
        · have hrab : r a b := hsx b hbs
          simp [hrab]
      rw [hnil]
      cases n with
      | zero => simp
      | succ m => simp
    · have hax : a ≠ x := fun h => hxs (h ▸ has)
      have hrxa : r x a := hsx a has
      have hnotrax : ¬ r a x := by
        intro hrax
        exact hax (hanti a ha x (List.mem_cons_self x s) hrax hrxa)
      have hpred : (decide (r x a) && ! decide (r a x)) = true := by
        simp [hrxa, hnotrax]
      simp only [List.filter_cons]
      rw [if_pos hpred]
      cases n with
      | zero => simp
      | succ m =>
        rw [List.take_succ_cons, List.mem_cons, List.length_cons,
          Nat.succ_lt_succ_iff]
        constructor
        · rintro (rfl | hmem)
          · exact absurd rfl hax
          · exact (ih hss hnds hantis a has m).mp hmem
        · intro hlt
          exact Or.inr ((ih hss hnds hantis a has m).mpr hlt)

/-- Helper: the topN window only shrinks (elementwise) when the
threshold is raised. -/
theorem searchWindow_mono {st : GraphState} {cos : List ℚ → ℚ}
    {ns : String} {n : ℕ} {t t' : ℚ} (htt : t ≤ t') :
    ∀ a ∈ searchWindow st cos ns t' n, a ∈ searchWindow st cos ns t n := by
  intro a ha
  simp only [searchWindow] at ha ⊢
  have hperm' := List.perm_insertionSort simOrder (passing st cos ns t')
  have hperm := List.perm_insertionSort simOrder (passing st cos ns t)
  have hpass' : a ∈ passing st cos ns t' :=
    hperm'.subset ((List.take_sublist _ _).subset ha)
  have hsubl : (passing st cos ns t').Sublist (passing st cos ns t) :=
    passing_sublist htt
  have hpass : a ∈ passing st cos ns t := hsubl.subset hpass'
  have hnd' : (passing st cos ns t').Nodup := nodup_passing st cos ns t'
  have hnd : (passing st cos ns t).Nodup := nodup_passing st cos ns t
  have hbridge' := mem_take_sorted_iff simOrder
    (List.insertionSort simOrder (passing st cos ns t'))
    (List.sorted_insertionSort simOrder _)
    (hperm'.nodup_iff.mpr hnd')
    (fun u hu v hv => passing_antisymm (hperm'.subset hu)
      (hperm'.subset hv))
    a (hperm'.mem_iff.mpr hpass') n
  have hbridge := mem_take_sorted_iff simOrder
    (List.insertionSort simOrder (passing st cos ns t))
    (List.sorted_insertionSort simOrder _)
    (hperm.nodup_iff.mpr hnd)
    (fun u hu v hv => passing_antisymm (hperm.subset hu)
      (hperm.subset hv))
    a (hperm.mem_iff.mpr hpass) n
  have hcnt' := (hperm'.filter
    (fun b => decide (simOrder b a) && ! decide (simOrder a b))).length_eq
  have hcnt := (hperm.filter
    (fun b => decide (simOrder b a) && ! decide (simOrder a b))).length_eq
  have hle1 : ((passing st cos ns t').filter
      (fun b => decide (simOrder b a) && ! decide (simOrder a b))).length ≤
      ((passing st cos ns t).filter
      (fun b => decide (simOrder b a) && ! decide (simOrder a b))).length :=
    (hsubl.filter _).length_le
  have hge : ((passing st cos ns t).filter
      (fun b => decide (simOrder b a) && ! decide (simOrder a b))).length ≤
      ((passing st cos ns t').filter
      (fun b => decide (simOrder b a) && ! decide (simOrder a b))).length := by
    have hsubset : ((passing st cos ns t).filter
        (fun b => decide (simOrder b a) && ! decide (simOrder a b))) ⊆
        ((passing st cos ns t').filter
        (fun b => decide (simOrder b a) && ! decide (simOrder a b))) := by
      intro b hb
      have hbp : b ∈ passing st cos ns t := List.mem_of_mem_filter hb
      have hbpred := List.of_mem_filter hb
      have hba : simOrder b a := by
        have h1 := (Bool.and_eq_true _ _).mp hbpred
        exact of_decide_eq_true h1.1
      exact List.mem_filter.mpr
        ⟨passing_closure hbp hpass' hba, hbpred⟩
    exact ((hnd.filter _).subperm hsubset).length_le
  have hcount :
      ((List.insertionSort simOrder (passing st cos ns t)).filter
        (fun b => decide (simOrder b a) && ! decide (simOrder a b))).length =
      ((List.insertionSort simOrder (passing st cos ns t')).filter
        (fun b => decide (simOrder b a) && ! decide (simOrder a b))).length := by
    rw [hcnt, hcnt']
    exact le_antisymm hge hle1
  exact hbridge.mpr (hcount ▸ (hbridge'.mp ha))

/-- Helper: the window has no duplicate rows. -/
theorem nodup_searchWindow (st : GraphState) (cos : List ℚ → ℚ)
    (ns : String) (t : ℚ) (n : ℕ) :
    (searchWindow st cos ns t n).Nodup := by
  simp only [searchWindow]
  exact (List.take_sublist _ _).nodup
    ((List.perm_insertionSort simOrder _).nodup_iff.mpr
      (nodup_passing st cos ns t))

/-- Helper: filtering the enumerated list by a predicate on the
entries counts the same as filtering the list itself. -/
theorem length_filter_enum_snd {α : Type} (g : α → Bool) (l : List α) :
    (l.enum.filter (fun p => g p.2)).length = (l.filter g).length := by
  conv_rhs => rw [← List.enum_map_snd l]
  rw [List.filter_map, List.length_map]
  rfl

/-- Helper: the result count equals the count of window rows passing
the chunk-level post-filter; the second ORDER BY plus LIMIT is a
permutation of the at-most-topN window records and cannot change
membership. -/
theorem scores_length_eq (st : GraphState) (cos : List ℚ → ℚ)
    (ns : String) (t : ℚ) (n : ℕ) (filters : List String)
    (knnDepth : ℕ) :
    (runSearchQuery st cos ns t n filters knnDepth).scores.length =
      ((searchWindow st cos ns t n).filter
        (fun r => keepChunk filters r.chunk)).length := by
  simp only [runSearchQuery, List.length_map, searchKeptRecords,
    searchRecords]
  have hlen : (List.insertionSort combOrder
      ((searchWindow st cos ns t n).enum.map
        (fun p => mkQRec st t knnDepth p.1 p.2))).length ≤ n := by
    rw [(List.perm_insertionSort _ _).length_eq, List.length_map,
      List.enum_length]
    simp only [searchWindow]
    exact List.length_take_le _ _
  rw [List.take_of_length_le hlen]
  rw [((List.perm_insertionSort combOrder _).filter
    (keepRecord filters)).length_eq]
  rw [List.filter_map, List.length_map]
  have hcongr : ((searchWindow st cos ns t n).enum.filter
      (keepRecord filters ∘ fun p => mkQRec st t knnDepth p.1 p.2)) =
      ((searchWindow st cos ns t n).enum.filter
        (fun p => keepChunk filters p.2.chunk)) :=
    List.filter_congr (fun p _ => rfl)
  rw [hcongr]
  exact length_filter_enum_snd (fun r => keepChunk filters r.chunk)
    (searchWindow st cos ns t n)

/-- C5: for a fixed query, namespace state, topN, exclusion list and
traversal depth, raising the similarity threshold never increases the
number of results returned by the search. -/
theorem C5_threshold_monotone (st : GraphState) (cos : List ℚ → ℚ)
    (ns : String) (n : ℕ) (filters : List String) (knnDepth : ℕ)
    {t t' : ℚ} (htt : t ≤ t') :
    (runSearchQuery st cos ns t' n filters knnDepth).scores.length ≤
      (runSearchQuery st cos ns t n filters knnDepth).scores.length := by
  rw [scores_length_eq, scores_length_eq]
  have hsubset : ((searchWindow st cos ns t' n).filter
      (fun r => keepChunk filters r.chunk)) ⊆
      ((searchWindow st cos ns t n).filter
      (fun r => keepChunk filters r.chunk)) := by
    intro b hb
    have hb1 := List.mem_of_mem_filter hb
    have hb2 := List.of_mem_filter hb
    exact List.mem_filter.mpr ⟨searchWindow_mono htt b hb1, hb2⟩
  have hnd := (nodup_searchWindow st cos ns t' n).filter
    (fun r => keepChunk filters r.chunk)
  exact (hnd.subperm hsubset).length_le

/-- C5 witness: monotonicity applied to a concrete store at
thresholds 1/4 and 1/2. -/
theorem C5_witness :
    (runSearchQuery ⟨[⟨"a", "d1", ["ws"], "ta", [], some [1]⟩], []⟩
      (fun _ => (1 : ℚ) / 2) "ws" ((1 : ℚ) / 2) 4 [] 2).scores.length ≤
    (runSearchQuery ⟨[⟨"a", "d1", ["ws"], "ta", [], some [1]⟩], []⟩
      (fun _ => (1 : ℚ) / 2) "ws" ((1 : ℚ) / 4) 4 [] 2).scores.length :=
  C5_threshold_monotone ⟨[⟨"a", "d1", ["ws"], "ta", [], some [1]⟩], []⟩
    (fun _ => (1 : ℚ) / 2) "ws" 4 [] 2 (by decide)

end NeoAdapter

